import Mathlib

/-!
Shallow embedding of `src/v3donationscript.py`: a batch pipeline that
extracts a PAN identifier from PDF documents, resolves each identifier to
an email address through a lookup table, groups documents by recipient,
sends one rate-limited, retried email per recipient, and moves the files
of successfully sent groups from the staging area to a processed area.

Strings are modelled as `List Char`.  External collaborators (PDF text
extraction, file copy and move, SMTP delivery) are modelled as explicit
function parameters returning `Except`/`Bool` outcomes, mirroring the
try/except boundaries of the Python code.  Wall-clock time is modelled in whole
seconds as `Nat`; a send attempt itself is instantaneous while the
`time.sleep` calls of the retry loop and of the rate limiter advance time.
-/

abbrev Str := List Char

/-- Model of `os.path.join dir name` for a relative `name`. -/
def pathJoin (a b : Str) : Str := a ++ '/' :: b

/-- Model of `os.path.basename`: the part after the last slash. -/
def basename (p : Str) : Str := (p.reverse.takeWhile (fun c => c != '/')).reverse

/-- The character class `[A-Z]` of the PAN regex in `extract_pan_from_pdf`. -/
def isUpperC (c : Char) : Bool := 'A' ≤ c && c ≤ 'Z'

/-- The character class `[0-9]` of the PAN regex in `extract_pan_from_pdf`. -/
def isDigitC (c : Char) : Bool := '0' ≤ c && c ≤ '9'

/-- Python regex `\s` on ASCII text: space, tab, newline, carriage return,
vertical tab, form feed. -/
def isSpaceC (c : Char) : Bool :=
  c == ' ' || c == '\t' || c == '\n' || c == '\r' || c == '\x0b' || c == '\x0c'

/-- The captured group `[A-Z]{5}[0-9]{4}[A-Z]` of the regex in
`extract_pan_from_pdf`: ten characters, five upper-case letters, four
digits, one upper-case letter. -/
def validPan (cs : Str) : Bool :=
  cs.length == 10 && (cs.take 5).all isUpperC &&
    ((cs.drop 5).take 4).all isDigitC && (cs.drop 9).all isUpperC

/-- The label phrase of the regex in `extract_pan_from_pdf`. -/
def panLabel : Str := "Unique Identification Number".toList

/-- Match the part of the regex after the label phrase: `\s+` followed by
the captured group.  `\s+` is greedy and the group starts with a
non-whitespace character, so the group must start right after the maximal
whitespace run, which must be non-empty. -/
def matchTail (cs : Str) : Option Str :=
  if (cs.takeWhile isSpaceC).isEmpty then none
  else if validPan ((cs.dropWhile isSpaceC).take 10) then
    some ((cs.dropWhile isSpaceC).take 10)
  else none

/-- Try to match the whole regex of `extract_pan_from_pdf` at the start of
`cs`, returning the captured group. -/
def regexMatchAt (cs : Str) : Option Str :=
  if panLabel.isPrefixOf cs then matchTail (cs.drop panLabel.length) else none

/-- `re.search`: the captured group of the leftmost position at which the
pattern matches, or `none`. -/
def searchPan : Str → Option Str
  | [] => none
  | c :: rest =>
    match regexMatchAt (c :: rest) with
    | some g => some g
    | none => searchPan rest

/-- `extract_pan_from_pdf`.  `readText` models PyPDF2 text extraction of
the whole document (the concatenation of the page texts); an `error`
result models the exception that the function catches, logs and turns
into `None`. -/
def extract_pan_from_pdf (readText : Str → Except Unit Str) (pdf_path : Str) : Option Str :=
  match readText pdf_path with
  | Except.error _ => none
  | Except.ok text => searchPan text

/-- One row of the lookup table loaded with `pd.read_csv`: its `PAN`
column and its `eMail ID` column. -/
structure Row where
  pan : Str
  email : Str
deriving DecidableEq

/-- `get_email_for_pan`: filter the rows on exact equality of the `PAN`
column and return the email of the first matching row (`iloc[0]`), or
`None` when no row matches. -/
def get_email_for_pan (pan : Str) (df : List Row) : Option Str :=
  match df.filter (fun r => r.pan == pan) with
  | [] => none
  | r :: _ => some r.email

/-- The `(pan, email, output_path)` result tuple of `process_pdf`. -/
structure Triple where
  pan : Str
  email : Str
  path : Str
deriving DecidableEq

/-- `process_pdf`.  `copyFile src dst` models `shutil.copy` (together with
the `os.makedirs` call just before it); an `error` result models a raised
exception, which the surrounding try/except turns into `None`. -/
def process_pdf (readText : Str → Except Unit Str) (copyFile : Str → Str → Except Unit Unit)
    (pdf_dir output_dir : Str) (df : List Row) (pdf_file : Str) : Option Triple :=
  let pdf_path := pathJoin pdf_dir pdf_file
  match extract_pan_from_pdf readText pdf_path with
  | none => none
  | some pan =>
    match get_email_for_pan pan df with
    | none => none
    | some email =>
      let output_path := pathJoin (pathJoin output_dir pan) pdf_file
      match copyFile pdf_path output_path with
      | Except.error _ => none
      | Except.ok _ => some ⟨pan, email, output_path⟩

/-- Python `str.lower` on an ASCII character. -/
def lowerC (c : Char) : Char :=
  if 'A' ≤ c && c ≤ 'Z' then Char.ofNat (c.toNat + 32) else c

/-- Python `str.lower` on ASCII text. -/
def lowerStr (s : Str) : Str := s.map lowerC

/-- The suffix tested by the listing filter of `main`. -/
def pdfSuffix : Str := ".pdf".toList

/-- The filter `f.lower().endswith` applied to one directory entry name. -/
def isPdfName (f : Str) : Bool := pdfSuffix.isSuffixOf (lowerStr f)

/-- The list comprehension over `os.listdir`: keep exactly the entries
whose lower-cased name ends in `.pdf`. -/
def listPdfFiles (listing : List Str) : List Str := listing.filter isPdfName

/-- The classification stage of `main`: `executor.map` applies
`process_pdf` to every file name and returns the results in input order,
one slot per input. -/
def classify_pdfs (readText : Str → Except Unit Str) (copyFile : Str → Str → Except Unit Unit)
    (pdf_dir output_dir : Str) (df : List Row) (pdf_files : List Str) : List (Option Triple) :=
  pdf_files.map (process_pdf readText copyFile pdf_dir output_dir df)

/-- The dictionary update of the grouping loop in `main`:
`if k not in d: d[k] = []` followed by `d[k].append(v)`. -/
def addToGroup (m : List (Str × List Str)) (k : Str) (v : Str) : List (Str × List Str) :=
  if m.any (fun p => p.1 == k) then
    m.map (fun p => if p.1 == k then (p.1, p.2 ++ [v]) else p)
  else m ++ [(k, [v])]

/-- One iteration of the grouping loop of `main` for one dictionary:
`None` results are skipped, a present triple has its path appended under
its `key`. -/
def groupStep (key : Triple → Str) (m : List (Str × List Str)) :
    Option Triple → List (Str × List Str)
  | none => m
  | some t => addToGroup m (key t) t.path

/-- The grouping loop of `main`, for one of its two dictionaries
(`email_groups` keyed by `Triple.email`, `pan_to_files` keyed by
`Triple.pan`).  The Python loop fills both dictionaries in a single pass;
as they never interact, it equals the two folds taken separately. -/
def groupPathsBy (key : Triple → Str) (results : List (Option Triple)) : List (Str × List Str) :=
  results.foldl (groupStep key) []

/-- Python dictionary indexing `d[k]` on the association lists built by
`groupPathsBy`, with `[]` for an absent key. -/
def lookupList (m : List (Str × List Str)) (k : Str) : List Str :=
  match m.find? (fun p => p.1 == k) with
  | none => []
  | some p => p.2

/-- The key list of a dictionary, in insertion order. -/
def groupKeys (m : List (Str × List Str)) : List Str := m.map Prod.fst

/-- The reverse lookup
`next(pan for pan, files in pan_to_files.items() if pdf_path in files)`
of the archival loop; `none` models the `StopIteration` raised when no
entry contains the path. -/
def lookupPan (ptf : List (Str × List Str)) (p : Str) : Option Str :=
  match ptf.find? (fun kv => kv.2.contains p) with
  | none => none
  | some kv => some kv.1

/-- The inner archival loop of `main` over the attachments of one
successfully sent group.  `moveFile src dst` models `shutil.move`
(together with the `os.makedirs` call before it); `false` models a raised
exception.  The loop body is not wrapped in its own try/except, so a
failed reverse lookup or a failed move stops the loop and propagates to
the top-level handler of `main`; the second component is `true` when the
loop ran to completion and the first component lists the paths actually
moved, in order. -/
def archiveFiles (moveFile : Str → Str → Bool) (ptf : List (Str × List Str))
    (processed_dir : Str) : List Str → List Str × Bool
  | [] => ([], true)
  | p :: rest =>
    match lookupPan ptf p with
    | none => ([], false)
    | some pan =>
      if moveFile p (pathJoin (pathJoin processed_dir pan) (basename p)) then
        let r := archiveFiles moveFile ptf processed_dir rest
        (p :: r.1, r.2)
      else ([], false)

/-- The send-and-archive loop of `main`.  `send email` is the boolean
result of `send_grouped_email_with_retry` for that recipient.  For each
group whose dispatch returns `true` the attachments are archived with
`archiveFiles`; an exception inside archival propagates to the top-level
handler, ending the whole loop.  The result lists, per group actually
reached, the recipient, its dispatch result and the paths moved for it;
the boolean is `true` when the loop was aborted by such an exception. -/
def dispatchLoop (send : Str → Bool) (moveFile : Str → Str → Bool)
    (ptf : List (Str × List Str)) (processed_dir : Str) :
    List (Str × List Str) → List (Str × Bool × List Str) × Bool
  | [] => ([], false)
  | (email, atts) :: rest =>
    if send email then
      let a := archiveFiles moveFile ptf processed_dir atts
      if a.2 then
        let r := dispatchLoop send moveFile ptf processed_dir rest
        ((email, true, a.1) :: r.1, r.2)
      else ([(email, true, a.1)], true)
    else
      let r := dispatchLoop send moveFile ptf processed_dir rest
      ((email, false, []) :: r.1, r.2)

/-- `CALLS_PER_MINUTE` of the script. -/
def CALLS_PER_MINUTE : Nat := 20

/-- `PERIOD` of the script, in seconds. -/
def PERIOD : Nat := 60

/-- `MAX_RETRIES` of the script. -/
def MAX_RETRIES : Nat := 5

/-- `BASE_DELAY` of the script, in seconds. -/
def BASE_DELAY : Nat := 1

/-- The state of the rate limiter wrapped around
`send_grouped_email_with_retry`: the current wall-clock time, the start
time of the current window (`last_reset`) and the number of calls already
counted in it (`num_calls`). -/
structure LimState where
  time : Nat
  lastReset : Nat
  numCalls : Nat
deriving DecidableEq

/-- Modelled behaviour of the imported `ratelimit` decorators
`@sleep_and_retry` and `@limits(calls=CALLS_PER_MINUTE, period=PERIOD)`:
a fixed-window counter.  On a call, if at least `PERIOD` seconds have
passed since `last_reset`, the window is reset; then the call is counted;
if the count exceeds the limit, the caller sleeps until the end of the window,
after which the window is reset and the call is counted in the new
window.  Callers are only ever delayed, never rejected. -/
def acquire (s : LimState) : LimState :=
  let s1 := if PERIOD ≤ s.time - s.lastReset then
      LimState.mk s.time s.time 0
    else s
  if CALLS_PER_MINUTE < s1.numCalls + 1 then
    LimState.mk (s1.lastReset + PERIOD) (s1.lastReset + PERIOD) 1
  else
    LimState.mk s1.time s1.lastReset (s1.numCalls + 1)

/-- The retry loop of `send_grouped_email_with_retry`, timed.  `fails k`
tells whether the SMTP attempt with index `k` raises; `fuel` counts the
remaining loop iterations, `attempt` is the current index and `t` the
current time.  Returns the list of times at which attempts are made, the
boolean result of the function, and the time when it returns.  After a
failed attempt with index `k` the loop sleeps `BASE_DELAY * 2 ^ k`
seconds (also after the last one); a successful attempt returns `true`
immediately. -/
def retryAux (fails : Nat → Bool) : Nat → Nat → Nat → List Nat × Bool × Nat
  | 0, _, t => ([], false, t)
  | fuel + 1, attempt, t =>
    if fails attempt then
      let r := retryAux fails fuel (attempt + 1) (t + BASE_DELAY * 2 ^ attempt)
      (t :: r.1, r.2)
    else ([t], true, t)

/-- `send_grouped_email_with_retry` entered at attempt index `attempt`:
the `for attempt in range(MAX_RETRIES)` loop has `MAX_RETRIES - attempt`
iterations left. -/
def retryFrom (fails : Nat → Bool) (attempt t : Nat) : List Nat × Bool × Nat :=
  retryAux fails (MAX_RETRIES - attempt) attempt t

/-- The dispatch loop of `main`, timed: one rate-limited call of
`send_grouped_email_with_retry` per recipient group, with `scheds` giving
the attempt-failure schedule of each call.  Returns the list of
`(call time, window start)` pairs of the invocations in order, the list
of times of all individual SMTP send attempts, and the final limiter
state. -/
def runTimed : List (Nat → Bool) → LimState → List (Nat × Nat) × List Nat × LimState
  | [], s => ([], [], s)
  | f :: rest, s =>
    let s1 := acquire s
    let r := retryFrom f 0 s1.time
    let q := runTimed rest (LimState.mk r.2.2 s1.lastReset s1.numCalls)
    ((s1.time, s1.lastReset) :: q.1, r.1 ++ q.2.1, q.2.2)

/-- A non-empty run of regex whitespace. -/
def SpacesNonempty (ws : Str) : Prop := ws ≠ [] ∧ ∀ c ∈ ws, isSpaceC c = true

/-- Declarative reading of one occurrence of the pattern of
`extract_pan_from_pdf`: the text splits as `pre`, then the label phrase,
then at least one whitespace character, then a validly formatted
ten-character code, then anything. -/
def LabeledPanAt (text pre code : Str) : Prop :=
  ∃ ws suf, SpacesNonempty ws ∧ validPan code = true ∧
    text = pre ++ panLabel ++ ws ++ code ++ suf

/-- The text contains the label phrase followed by a validly formatted
code somewhere. -/
def HasLabeledPan (text : Str) : Prop := ∃ pre code, LabeledPanAt text pre code

theorem validPan_length {cs : Str} (h : validPan cs = true) : cs.length = 10 := by
  unfold validPan at h
  simp only [Bool.and_eq_true, beq_iff_eq] at h
  exact h.1.1.1

theorem validPan_head_upper {c : Char} {cs : Str} (h : validPan (c :: cs) = true) :
    isUpperC c = true := by
  unfold validPan at h
  simp only [Bool.and_eq_true] at h
  have h2 := h.1.1.2
  have h3 : (c :: cs).take 5 = c :: cs.take 4 := rfl
  rw [h3, List.all_cons, Bool.and_eq_true] at h2
  exact h2.1

theorem isSpaceC_false_of_upper {c : Char} (h : isUpperC c = true) : isSpaceC c = false := by
  unfold isUpperC at h
  simp only [Bool.and_eq_true, decide_eq_true_eq] at h
  unfold isSpaceC
  simp only [Bool.or_eq_false_iff, beq_eq_false_iff_ne, ne_eq]
  refine ⟨⟨⟨⟨⟨?_, ?_⟩, ?_⟩, ?_⟩, ?_⟩, ?_⟩ <;> rintro rfl <;> exact absurd h.1 (by decide)

theorem takeWhile_append_all {p : Char → Bool} {l1 l2 : Str} {a : Char}
    (h1 : ∀ c ∈ l1, p c = true) (h2 : p a = false) :
    (l1 ++ a :: l2).takeWhile p = l1 := by
  induction l1 with
  | nil => simp [List.takeWhile_cons, h2]
  | cons x xs ih =>
    have hx : p x = true := h1 x (by simp)
    simp only [List.cons_append, List.takeWhile_cons, hx]
    simp [ih (fun c hc => h1 c (by simp [hc]))]

theorem dropWhile_append_all {p : Char → Bool} {l1 l2 : Str} {a : Char}
    (h1 : ∀ c ∈ l1, p c = true) (h2 : p a = false) :
    (l1 ++ a :: l2).dropWhile p = a :: l2 := by
  induction l1 with
  | nil => simp [List.dropWhile_cons, h2]
  | cons x xs ih =>
    have hx : p x = true := h1 x (by simp)
    simp only [List.cons_append, List.dropWhile_cons, hx]
    simp [ih (fun c hc => h1 c (by simp [hc]))]

theorem matchTail_complete (ws code suf : Str) (hws : SpacesNonempty ws)
    (hcode : validPan code = true) :
    matchTail (ws ++ code ++ suf) = some code := by
  obtain ⟨hne, hall⟩ := hws
  have hlen := validPan_length hcode
  obtain ⟨c, cs, rfl⟩ : ∃ c cs, code = c :: cs := by
    cases code with
    | nil => simp at hlen
    | cons c cs => exact ⟨c, cs, rfl⟩
  have hsp : isSpaceC c = false := isSpaceC_false_of_upper (validPan_head_upper hcode)
  have hshape : ws ++ (c :: cs) ++ suf = ws ++ c :: (cs ++ suf) := by simp
  have htw : (ws ++ (c :: cs) ++ suf).takeWhile isSpaceC = ws := by
    rw [hshape]; exact takeWhile_append_all hall hsp
  have hdw : (ws ++ (c :: cs) ++ suf).dropWhile isSpaceC = (c :: cs) ++ suf := by
    rw [hshape, dropWhile_append_all hall hsp]; rfl
  have htake : ((c :: cs) ++ suf).take 10 = c :: cs := by
    rw [← hlen]; exact List.take_left _ _
  unfold matchTail
  rw [htw, hdw, htake]
  simp [hne, hcode, List.isEmpty_iff]

theorem matchTail_sound {cs code : Str} (h : matchTail cs = some code) :
    ∃ ws suf, SpacesNonempty ws ∧ validPan code = true ∧ cs = ws ++ code ++ suf := by
  unfold matchTail at h
  split at h
  · exact Option.noConfusion h
  · rename_i hne
    split at h
    · rename_i hv
      injection h with h
      subst h
      refine ⟨cs.takeWhile isSpaceC, (cs.dropWhile isSpaceC).drop 10,
        ⟨?_, fun c hc => List.mem_takeWhile_imp hc⟩, hv, ?_⟩
      · intro heq
        rw [heq] at hne
        simp at hne
      · conv_lhs => rw [← List.takeWhile_append_dropWhile isSpaceC cs]
        conv_lhs => rw [← List.take_append_drop 10 (cs.dropWhile isSpaceC)]
        simp [List.append_assoc]
    · exact Option.noConfusion h

theorem regexMatchAt_sound {cs code : Str} (h : regexMatchAt cs = some code) :
    ∃ ws suf, SpacesNonempty ws ∧ validPan code = true ∧
      cs = panLabel ++ ws ++ code ++ suf := by
  unfold regexMatchAt at h
  split at h
  · rename_i hpre
    obtain ⟨rest, hrest⟩ := List.isPrefixOf_iff_prefix.mp hpre
    have hdrop : cs.drop panLabel.length = rest := by
      rw [← hrest]; exact List.drop_left _ _
    rw [hdrop] at h
    obtain ⟨ws, suf, hws, hv, hre⟩ := matchTail_sound h
    refine ⟨ws, suf, hws, hv, ?_⟩
    rw [← hrest, hre]
    simp [List.append_assoc]
  · exact Option.noConfusion h

theorem regexMatchAt_complete (ws code suf : Str) (hws : SpacesNonempty ws)
    (hv : validPan code = true) :
    regexMatchAt (panLabel ++ ws ++ code ++ suf) = some code := by
  have hpre : panLabel.isPrefixOf (panLabel ++ ws ++ code ++ suf) = true := by
    apply List.isPrefixOf_iff_prefix.mpr
    exact ⟨ws ++ code ++ suf, by simp [List.append_assoc]⟩
  have hdrop : (panLabel ++ ws ++ code ++ suf).drop panLabel.length = ws ++ code ++ suf := by
    have : panLabel ++ ws ++ code ++ suf = panLabel ++ (ws ++ code ++ suf) := by
      simp [List.append_assoc]
    rw [this]; exact List.drop_left _ _
  unfold regexMatchAt
  rw [hpre, hdrop]
  have := matchTail_complete ws code suf hws hv
  simpa [List.append_assoc] using this

theorem searchPan_sound : ∀ {text code : Str}, searchPan text = some code →
    ∃ pre, LabeledPanAt text pre code ∧
      ∀ pre2 code2, LabeledPanAt text pre2 code2 → pre.length ≤ pre2.length := by
  intro text
  induction text with
  | nil => intro code h; simp [searchPan] at h
  | cons c rest ih =>
    intro code h
    cases hm : regexMatchAt (c :: rest) with
    | some g =>
      rw [searchPan, hm] at h
      injection h with h
      subst h
      obtain ⟨ws, suf, hws, hv, heq⟩ := regexMatchAt_sound hm
      exact ⟨[], ⟨ws, suf, hws, hv, by simpa using heq⟩, fun pre2 code2 _ => Nat.zero_le _⟩
    | none =>
      rw [searchPan, hm] at h
      obtain ⟨pre, hpre, hmin⟩ := ih h
      refine ⟨c :: pre, ?_, ?_⟩
      · obtain ⟨ws, suf, hws, hv, heq⟩ := hpre
        exact ⟨ws, suf, hws, hv, by simp [heq]⟩
      · rintro pre2 code2 ⟨ws2, suf2, hws2, hv2, heq2⟩
        cases pre2 with
        | nil =>
          exfalso
          simp only [List.nil_append] at heq2
          rw [heq2, regexMatchAt_complete ws2 code2 suf2 hws2 hv2] at hm
          exact Option.noConfusion hm
        | cons c2 pre2t =>
          simp only [List.cons_append] at heq2
          injection heq2 with hc hrest2
          have hmem : LabeledPanAt rest pre2t code2 := ⟨ws2, suf2, hws2, hv2, hrest2⟩
          simpa using Nat.succ_le_succ (hmin pre2t code2 hmem)

theorem searchPan_complete : ∀ {text : Str}, HasLabeledPan text →
    (searchPan text).isSome = true := by
  intro text
  induction text with
  | nil =>
    rintro ⟨pre, code, ws, suf, hws, hv, heq⟩
    have hlen := congrArg List.length heq
    simp only [List.length_nil, List.length_append] at hlen
    have h28 : panLabel.length = 28 := rfl
    omega
  | cons c rest ih =>
    rintro ⟨pre, code, ws, suf, hws, hv, heq⟩
    cases hm : regexMatchAt (c :: rest) with
    | some g => simp [searchPan, hm]
    | none =>
      rw [searchPan, hm]
      apply ih
      cases pre with
      | nil =>
        exfalso
        simp only [List.nil_append] at heq
        rw [heq, regexMatchAt_complete ws code suf hws hv] at hm
        exact Option.noConfusion hm
      | cons c2 pret =>
        simp only [List.cons_append] at heq
        injection heq with hc hrest
        exact ⟨pret, code, ws, suf, hws, hv, hrest⟩

/-- Claim C5: for every input text that contains the known label phrase
followed (after at least one whitespace character, as the regex `\s+`
requires) by a validly formatted identifier, `extract_pan_from_pdf`
returns exactly the ten-character code captured at the leftmost match;
for text without the label phrase, or with a malformed code after it, it
returns absence. -/
theorem extractor_first_labeled_code (text : Str) :
    (∀ code, searchPan text = some code →
      ∃ pre, LabeledPanAt text pre code ∧
        ∀ pre2 code2, LabeledPanAt text pre2 code2 → pre.length ≤ pre2.length) ∧
    ((searchPan text).isSome = true ↔ HasLabeledPan text) := by
  refine ⟨fun code h => searchPan_sound h, ?_, searchPan_complete⟩
  intro h
  cases hs : searchPan text with
  | none => rw [hs] at h; simp at h
  | some code =>
    obtain ⟨pre, hp, _⟩ := searchPan_sound hs
    exact ⟨pre, code, hp⟩

theorem extractor_first_labeled_code_witness :
    (∃ pre, LabeledPanAt ("see Unique Identification Number  ABCDE1234F now".toList) pre
        ("ABCDE1234F".toList) ∧
      ∀ pre2 code2,
        LabeledPanAt ("see Unique Identification Number  ABCDE1234F now".toList) pre2 code2 →
          pre.length ≤ pre2.length) ∧
    (searchPan ("x Unique Identification Number ZZZZZ0000Z".toList)).isSome = true :=
  ⟨(extractor_first_labeled_code ("see Unique Identification Number  ABCDE1234F now".toList)).1
      ("ABCDE1234F".toList) (by decide),
   (extractor_first_labeled_code ("x Unique Identification Number ZZZZZ0000Z".toList)).2.mpr
      ⟨"x ".toList, "ZZZZZ0000Z".toList, " ".toList, [], ⟨by decide, by decide⟩,
        by decide, by decide⟩⟩

/-- Claim C6: for every identifier present in the lookup table (also when
several rows carry the same identifier), `get_email_for_pan` returns the
email of the first row whose `PAN` column equals the queried identifier
exactly; for an identifier in no row it returns absence. -/
theorem resolver_first_row (pan : Str) (df : List Row) :
    ((∀ r ∈ df, r.pan ≠ pan) → get_email_for_pan pan df = none) ∧
    (∀ pre r suf, df = pre ++ r :: suf → r.pan = pan →
      (∀ r2 ∈ pre, r2.pan ≠ pan) → get_email_for_pan pan df = some r.email) := by
  constructor
  · intro h
    unfold get_email_for_pan
    have hnil : df.filter (fun r => r.pan == pan) = [] := by
      rw [List.filter_eq_nil_iff]
      intro r hr
      simp [h r hr]
    rw [hnil]
  · intro pre r suf hdf hr hpre
    unfold get_email_for_pan
    subst hdf
    have h1 : pre.filter (fun r2 => r2.pan == pan) = [] := by
      rw [List.filter_eq_nil_iff]
      intro r2 hr2
      simp [hpre r2 hr2]
    rw [List.filter_append, h1, List.nil_append, List.filter_cons]
    simp [hr]

theorem resolver_first_row_witness :
    get_email_for_pan ("AAAAA1111A".toList)
      [Row.mk ("BBBBB2222B".toList) ("x@x.com".toList)] = none ∧
    get_email_for_pan ("AAAAA1111A".toList)
      [Row.mk ("BBBBB2222B".toList) ("x@x.com".toList),
       Row.mk ("AAAAA1111A".toList) ("first@x.com".toList),
       Row.mk ("AAAAA1111A".toList) ("second@x.com".toList)] = some ("first@x.com".toList) :=
  ⟨(resolver_first_row ("AAAAA1111A".toList)
      [Row.mk ("BBBBB2222B".toList) ("x@x.com".toList)]).1 (by decide),
   (resolver_first_row ("AAAAA1111A".toList)
      [Row.mk ("BBBBB2222B".toList) ("x@x.com".toList),
       Row.mk ("AAAAA1111A".toList) ("first@x.com".toList),
       Row.mk ("AAAAA1111A".toList) ("second@x.com".toList)]).2
     [Row.mk ("BBBBB2222B".toList) ("x@x.com".toList)]
     (Row.mk ("AAAAA1111A".toList) ("first@x.com".toList))
     [Row.mk ("AAAAA1111A".toList) ("second@x.com".toList)]
     (by decide) (by decide) (by decide)⟩


theorem find?_cons_eq {α : Type} (p : α → Bool) (a : α) (l : List α) :
    (a :: l).find? p = if p a then some a else l.find? p := by
  cases h : p a <;> simp [List.find?, h]

theorem find?_key_map (m : List (Str × List Str)) (k j v : Str) :
    (m.map (fun p => if p.1 == k then (p.1, p.2 ++ [v]) else p)).find?
        (fun p => p.1 == j) =
      (m.find? (fun p => p.1 == j)).map
        (fun p => if p.1 == k then (p.1, p.2 ++ [v]) else p) := by
  induction m with
  | nil => rfl
  | cons a m1 ih =>
    have hkey : ((if a.1 == k then (a.1, a.2 ++ [v]) else a) : Str × List Str).1 = a.1 := by
      split <;> rfl
    simp only [List.map_cons, find?_cons_eq, hkey]
    cases haj : (a.1 == j) with
    | true => simp
    | false => simpa using ih

theorem lookupList_addToGroup (m : List (Str × List Str)) (k v j : Str) :
    lookupList (addToGroup m k v) j =
      if j = k then lookupList m j ++ [v] else lookupList m j := by
  unfold addToGroup
  by_cases hany : m.any (fun p => p.1 == k) = true
  · rw [if_pos hany]
    unfold lookupList
    rw [find?_key_map]
    by_cases hjk : j = k
    · subst hjk
      obtain ⟨x, hx, hpx⟩ := List.any_eq_true.mp hany
      have hs : (m.find? (fun p => p.1 == j)).isSome = true :=
        List.find?_isSome.mpr ⟨x, hx, hpx⟩
      obtain ⟨p, hp⟩ := Option.isSome_iff_exists.mp hs
      have hpj := List.find?_some hp
      simp only [beq_iff_eq] at hpj
      rw [hp]
      simp [hpj]
    · cases hf : m.find? (fun p => p.1 == j) with
      | none => simp [hjk]
      | some p =>
        have hpj := List.find?_some hf
        simp only [beq_iff_eq] at hpj
        have hnk : ¬ p.1 = k := by rw [hpj]; exact hjk
        simp [hjk, hnk]
  · rw [if_neg hany]
    have hnone : m.find? (fun p => p.1 == k) = none := by
      rw [List.find?_eq_none]
      intro x hx hpx
      exact hany (List.any_eq_true.mpr ⟨x, hx, hpx⟩)
    unfold lookupList
    rw [List.find?_append]
    by_cases hjk : j = k
    · subst hjk
      rw [hnone]
      simp [find?_cons_eq]
    · cases hf : m.find? (fun p => p.1 == j) with
      | none =>
        have hkj : ((k, [v]).1 == j) = false := by
          simp only [beq_eq_false_iff_ne, ne_eq]
          intro h
          exact hjk h.symm
        simp [hf, find?_cons_eq, hkj, hjk]
      | some p =>
        simp [hf, hjk]

theorem mem_lookupList_foldl (key : Triple → Str) (rs : List (Option Triple)) :
    ∀ (m : List (Str × List Str)) (j v : Str),
      (v ∈ lookupList (rs.foldl (groupStep key) m) j ↔
        v ∈ lookupList m j ∨ ∃ t, some t ∈ rs ∧ key t = j ∧ t.path = v) := by
  induction rs with
  | nil => intro m j v; simp
  | cons r rs ih =>
    intro m j v
    cases r with
    | none =>
      simp only [List.foldl_cons]
      rw [show groupStep key m none = m from rfl, ih]
      simp [List.mem_cons]
    | some t0 =>
      simp only [List.foldl_cons]
      rw [show groupStep key m (some t0) = addToGroup m (key t0) t0.path from rfl, ih,
        lookupList_addToGroup]
      by_cases hj : j = key t0
      · subst hj
        rw [if_pos rfl]
        simp only [List.mem_append, List.mem_cons, Option.some.injEq]
        constructor
        · rintro ((h | h) | ⟨t, ht, hk, hp⟩)
          · exact Or.inl h
          · simp only [List.not_mem_nil, or_false] at h
            exact Or.inr ⟨t0, Or.inl rfl, rfl, h.symm⟩
          · exact Or.inr ⟨t, Or.inr ht, hk, hp⟩
        · rintro (h | ⟨t, (ht | ht), hk, hp⟩)
          · exact Or.inl (Or.inl h)
          · subst ht
            exact Or.inl (Or.inr (by simp [hp.symm]))
          · exact Or.inr ⟨t, ht, hk, hp⟩
      · rw [if_neg hj]
        simp only [List.mem_cons, Option.some.injEq]
        constructor
        · rintro (h | ⟨t, ht, hk, hp⟩)
          · exact Or.inl h
          · exact Or.inr ⟨t, Or.inr ht, hk, hp⟩
        · rintro (h | ⟨t, (ht | ht), hk, hp⟩)
          · exact Or.inl h
          · subst ht
            exact absurd hk (fun h2 => hj h2.symm)
          · exact Or.inr ⟨t, ht, hk, hp⟩

theorem mem_lookupList_groupPathsBy (key : Triple → Str) (rs : List (Option Triple))
    (j v : Str) :
    v ∈ lookupList (groupPathsBy key rs) j ↔
      ∃ t, some t ∈ rs ∧ key t = j ∧ t.path = v := by
  unfold groupPathsBy
  rw [mem_lookupList_foldl]
  simp [lookupList]

theorem mem_groupKeys_addToGroup (m : List (Str × List Str)) (k v j : Str) :
    j ∈ groupKeys (addToGroup m k v) ↔ j ∈ groupKeys m ∨ j = k := by
  unfold addToGroup groupKeys
  by_cases hany : m.any (fun p => p.1 == k) = true
  · rw [if_pos hany]
    obtain ⟨x, hx, hpx⟩ := List.any_eq_true.mp hany
    have hxk : x.1 = k := beq_iff_eq.mp hpx
    have hkeys : (m.map (fun p => if p.1 == k then (p.1, p.2 ++ [v]) else p)).map Prod.fst =
        m.map Prod.fst := by
      rw [List.map_map]
      apply List.map_congr_left
      intro p _
      show ((if p.1 == k then (p.1, p.2 ++ [v]) else p) : Str × List Str).1 = p.1
      split <;> rfl
    rw [hkeys]
    constructor
    · exact Or.inl
    · rintro (h | rfl)
      · exact h
      · rw [← hxk]
        exact List.mem_map.mpr ⟨x, hx, rfl⟩
  · rw [if_neg hany]
    simp [List.mem_map]

theorem mem_groupKeys_foldl (key : Triple → Str) (rs : List (Option Triple)) :
    ∀ (m : List (Str × List Str)) (j : Str),
      (j ∈ groupKeys (rs.foldl (groupStep key) m) ↔
        j ∈ groupKeys m ∨ ∃ t, some t ∈ rs ∧ key t = j) := by
  induction rs with
  | nil => intro m j; simp
  | cons r rs ih =>
    intro m j
    cases r with
    | none =>
      simp only [List.foldl_cons]
      rw [show groupStep key m none = m from rfl, ih]
      simp [List.mem_cons]
    | some t0 =>
      simp only [List.foldl_cons]
      rw [show groupStep key m (some t0) = addToGroup m (key t0) t0.path from rfl, ih,
        mem_groupKeys_addToGroup]
      simp only [List.mem_cons, Option.some.injEq]
      constructor
      · rintro ((h | h) | ⟨t, ht, hk⟩)
        · exact Or.inl h
        · exact Or.inr ⟨t0, Or.inl rfl, h.symm⟩
        · exact Or.inr ⟨t, Or.inr ht, hk⟩
      · rintro (h | ⟨t, (ht | ht), hk⟩)
        · exact Or.inl (Or.inl h)
        · subst ht
          exact Or.inl (Or.inr hk.symm)
        · exact Or.inr ⟨t, ht, hk⟩

theorem mem_groupKeys_groupPathsBy (key : Triple → Str) (rs : List (Option Triple)) (j : Str) :
    j ∈ groupKeys (groupPathsBy key rs) ↔ ∃ t, some t ∈ rs ∧ key t = j := by
  unfold groupPathsBy
  rw [mem_groupKeys_foldl]
  simp [groupKeys]

/-- Claim C7: re-ordering the classification result list before grouping
yields the same email-to-paths mapping and the same identifier-to-paths
mapping, comparing each mapping by its key set and by the set of paths
under each key. -/
theorem grouping_order_independent (rs1 rs2 : List (Option Triple))
    (h : rs1.Perm rs2) (k v : Str) :
    (k ∈ groupKeys (groupPathsBy Triple.email rs1) ↔
      k ∈ groupKeys (groupPathsBy Triple.email rs2)) ∧
    (v ∈ lookupList (groupPathsBy Triple.email rs1) k ↔
      v ∈ lookupList (groupPathsBy Triple.email rs2) k) ∧
    (k ∈ groupKeys (groupPathsBy Triple.pan rs1) ↔
      k ∈ groupKeys (groupPathsBy Triple.pan rs2)) ∧
    (v ∈ lookupList (groupPathsBy Triple.pan rs1) k ↔
      v ∈ lookupList (groupPathsBy Triple.pan rs2) k) := by
  refine ⟨?_, ?_, ?_, ?_⟩ <;>
    simp only [mem_groupKeys_groupPathsBy, mem_lookupList_groupPathsBy, h.mem_iff]

theorem grouping_order_independent_witness :
    (("a@x.com".toList) ∈ groupKeys (groupPathsBy Triple.email
        [some (Triple.mk ("AAAAA1111A".toList) ("a@x.com".toList) ("p1".toList)), none,
         some (Triple.mk ("BBBBB2222B".toList) ("a@x.com".toList) ("p2".toList))]) ↔
      ("a@x.com".toList) ∈ groupKeys (groupPathsBy Triple.email
        ([some (Triple.mk ("AAAAA1111A".toList) ("a@x.com".toList) ("p1".toList)), none,
          some (Triple.mk ("BBBBB2222B".toList) ("a@x.com".toList) ("p2".toList))].reverse))) ∧
    (("p2".toList) ∈ lookupList (groupPathsBy Triple.email
        [some (Triple.mk ("AAAAA1111A".toList) ("a@x.com".toList) ("p1".toList)), none,
         some (Triple.mk ("BBBBB2222B".toList) ("a@x.com".toList) ("p2".toList))])
        ("a@x.com".toList) ↔
      ("p2".toList) ∈ lookupList (groupPathsBy Triple.email
        ([some (Triple.mk ("AAAAA1111A".toList) ("a@x.com".toList) ("p1".toList)), none,
          some (Triple.mk ("BBBBB2222B".toList) ("a@x.com".toList) ("p2".toList))].reverse))
        ("a@x.com".toList)) ∧
    (("a@x.com".toList) ∈ groupKeys (groupPathsBy Triple.pan
        [some (Triple.mk ("AAAAA1111A".toList) ("a@x.com".toList) ("p1".toList)), none,
         some (Triple.mk ("BBBBB2222B".toList) ("a@x.com".toList) ("p2".toList))]) ↔
      ("a@x.com".toList) ∈ groupKeys (groupPathsBy Triple.pan
        ([some (Triple.mk ("AAAAA1111A".toList) ("a@x.com".toList) ("p1".toList)), none,
          some (Triple.mk ("BBBBB2222B".toList) ("a@x.com".toList) ("p2".toList))].reverse))) ∧
    (("p2".toList) ∈ lookupList (groupPathsBy Triple.pan
        [some (Triple.mk ("AAAAA1111A".toList) ("a@x.com".toList) ("p1".toList)), none,
         some (Triple.mk ("BBBBB2222B".toList) ("a@x.com".toList) ("p2".toList))])
        ("a@x.com".toList) ↔
      ("p2".toList) ∈ lookupList (groupPathsBy Triple.pan
        ([some (Triple.mk ("AAAAA1111A".toList) ("a@x.com".toList) ("p1".toList)), none,
          some (Triple.mk ("BBBBB2222B".toList) ("a@x.com".toList) ("p2".toList))].reverse))
        ("a@x.com".toList)) :=
  grouping_order_independent
    [some (Triple.mk ("AAAAA1111A".toList) ("a@x.com".toList) ("p1".toList)), none,
     some (Triple.mk ("BBBBB2222B".toList) ("a@x.com".toList) ("p2".toList))]
    ([some (Triple.mk ("AAAAA1111A".toList) ("a@x.com".toList) ("p1".toList)), none,
      some (Triple.mk ("BBBBB2222B".toList) ("a@x.com".toList) ("p2".toList))].reverse)
    (List.reverse_perm _).symm ("a@x.com".toList) ("p2".toList)

theorem process_pdf_some_elim {rt : Str → Except Unit Str} {cf : Str → Str → Except Unit Unit}
    {pd od : Str} {df : List Row} {f : Str} {t : Triple}
    (h : process_pdf rt cf pd od df f = some t) :
    extract_pan_from_pdf rt (pathJoin pd f) = some t.pan ∧
    get_email_for_pan t.pan df = some t.email ∧
    cf (pathJoin pd f) (pathJoin (pathJoin od t.pan) f) = Except.ok () ∧
    t.path = pathJoin (pathJoin od t.pan) f ∧ validPan t.pan = true := by
  simp only [process_pdf] at h
  split at h
  · exact Option.noConfusion h
  · rename_i pan he
    split at h
    · exact Option.noConfusion h
    · rename_i email hg
      split at h
      · exact Option.noConfusion h
      · rename_i u hc
        injection h with h
        subst h
        refine ⟨he, hg, ?_, rfl, ?_⟩
        · cases u
          exact hc
        · unfold extract_pan_from_pdf at he
          split at he
          · exact Option.noConfusion he
          · obtain ⟨pre, ⟨ws, suf, hws, hv, heq⟩, hmin⟩ := searchPan_sound he
            exact hv

theorem classify_path_determines_pan {rt : Str → Except Unit Str}
    {cf : Str → Str → Except Unit Unit} {pd od : Str} {df : List Row} {files : List Str}
    {t1 t2 : Triple}
    (h1 : some t1 ∈ classify_pdfs rt cf pd od df files)
    (h2 : some t2 ∈ classify_pdfs rt cf pd od df files)
    (hp : t1.path = t2.path) : t1.pan = t2.pan := by
  unfold classify_pdfs at h1 h2
  obtain ⟨f1, hf1, hp1⟩ := List.mem_map.mp h1
  obtain ⟨f2, hf2, hp2⟩ := List.mem_map.mp h2
  obtain ⟨-, -, -, hpath1, hv1⟩ := process_pdf_some_elim hp1
  obtain ⟨-, -, -, hpath2, hv2⟩ := process_pdf_some_elim hp2
  have hl1 : t1.pan.length = 10 := validPan_length hv1
  have hl2 : t2.pan.length = 10 := validPan_length hv2
  rw [hpath1, hpath2] at hp
  unfold pathJoin at hp
  rw [List.append_assoc, List.append_assoc] at hp
  have hq := List.append_cancel_left hp
  simp only [List.cons_append] at hq
  injection hq with hq2 hq3
  exact (List.append_inj hq3 (by rw [hl1, hl2])).1

/-- Claim C8: after grouping, every stored path occurring in any
recipient group of `email_groups` occurs in the path list of exactly one
identifier of `pan_to_files`, and the reverse lookup the archival stage
performs for such a path succeeds. -/
theorem grouped_path_has_unique_pan (rt : Str → Except Unit Str)
    (cf : Str → Str → Except Unit Unit) (pd od : Str) (df : List Row)
    (files : List Str) (e p : Str)
    (hp : p ∈ lookupList (groupPathsBy Triple.email (classify_pdfs rt cf pd od df files)) e) :
    (∃! pan,
      p ∈ lookupList (groupPathsBy Triple.pan (classify_pdfs rt cf pd od df files)) pan) ∧
    (lookupPan (groupPathsBy Triple.pan (classify_pdfs rt cf pd od df files)) p).isSome =
      true := by
  obtain ⟨t, ht, he, hpath⟩ := (mem_lookupList_groupPathsBy _ _ _ _).mp hp
  have hmem : p ∈ lookupList (groupPathsBy Triple.pan (classify_pdfs rt cf pd od df files))
      t.pan :=
    (mem_lookupList_groupPathsBy _ _ _ _).mpr ⟨t, ht, rfl, hpath⟩
  constructor
  · refine ⟨t.pan, hmem, ?_⟩
    intro pan2 hp2
    obtain ⟨t2, ht2, hk2, hpath2⟩ := (mem_lookupList_groupPathsBy _ _ _ _).mp hp2
    rw [← hk2]
    exact classify_path_determines_pan ht2 ht (by rw [hpath2, hpath])
  · unfold lookupList at hmem
    cases hf : (groupPathsBy Triple.pan (classify_pdfs rt cf pd od df files)).find?
        (fun q => q.1 == t.pan) with
    | none => rw [hf] at hmem; simp at hmem
    | some kv =>
      rw [hf] at hmem
      have hkvmem := List.mem_of_find?_eq_some hf
      have hs : ((groupPathsBy Triple.pan (classify_pdfs rt cf pd od df files)).find?
          (fun q => q.2.contains p)).isSome = true := by
        rw [List.find?_isSome]
        exact ⟨kv, hkvmem, List.elem_iff.mpr hmem⟩
      unfold lookupPan
      obtain ⟨kv2, hkv2⟩ := Option.isSome_iff_exists.mp hs
      rw [hkv2]
      rfl

theorem grouped_path_has_unique_pan_witness :
    (∃! pan,
      (pathJoin (pathJoin ("st".toList) ("ABCDE1234F".toList)) ("A.pdf".toList)) ∈
        lookupList (groupPathsBy Triple.pan (classify_pdfs
          (fun _ => Except.ok ("Unique Identification Number ABCDE1234F".toList))
          (fun _ _ => Except.ok ()) ("in".toList) ("st".toList)
          [Row.mk ("ABCDE1234F".toList) ("a@x.com".toList)] ["A.pdf".toList])) pan) ∧
    (lookupPan (groupPathsBy Triple.pan (classify_pdfs
        (fun _ => Except.ok ("Unique Identification Number ABCDE1234F".toList))
        (fun _ _ => Except.ok ()) ("in".toList) ("st".toList)
        [Row.mk ("ABCDE1234F".toList) ("a@x.com".toList)] ["A.pdf".toList]))
      (pathJoin (pathJoin ("st".toList) ("ABCDE1234F".toList)) ("A.pdf".toList))).isSome =
      true :=
  grouped_path_has_unique_pan
    (fun _ => Except.ok ("Unique Identification Number ABCDE1234F".toList))
    (fun _ _ => Except.ok ()) ("in".toList) ("st".toList)
    [Row.mk ("ABCDE1234F".toList) ("a@x.com".toList)] ["A.pdf".toList]
    ("a@x.com".toList)
    (pathJoin (pathJoin ("st".toList) ("ABCDE1234F".toList)) ("A.pdf".toList))
    (by decide)

theorem process_pdf_isSome_iff (rt : Str → Except Unit Str)
    (cf : Str → Str → Except Unit Unit) (pd od : Str) (df : List Row) (f : Str) :
    (process_pdf rt cf pd od df f).isSome = true ↔
      ∃ pan email, extract_pan_from_pdf rt (pathJoin pd f) = some pan ∧
        get_email_for_pan pan df = some email ∧
        cf (pathJoin pd f) (pathJoin (pathJoin od pan) f) = Except.ok () := by
  constructor
  · intro h
    obtain ⟨t, ht⟩ := Option.isSome_iff_exists.mp h
    obtain ⟨he, hg, hc, -, -⟩ := process_pdf_some_elim ht
    exact ⟨t.pan, t.email, he, hg, hc⟩
  · rintro ⟨pan, email, he, hg, hc⟩
    simp [process_pdf, he, hg, hc]

/-- Claim C9: the classification stage returns exactly one result slot
per input file name, each slot is a function of its own document only,
and a slot is present exactly when its extraction, resolution and copy
steps all succeeded (so any failure yields absence in that slot and
leaves every other slot untouched). -/
theorem classifier_one_slot_per_input (rt : Str → Except Unit Str)
    (cf : Str → Str → Except Unit Unit) (pd od : Str) (df : List Row) (files : List Str) :
    (classify_pdfs rt cf pd od df files).length = files.length ∧
    ∀ i, i < files.length →
      ((classify_pdfs rt cf pd od df files).getD i none =
        process_pdf rt cf pd od df (files.getD i []) ∧
       (((classify_pdfs rt cf pd od df files).getD i none).isSome = true ↔
         ∃ pan email,
           extract_pan_from_pdf rt (pathJoin pd (files.getD i [])) = some pan ∧
           get_email_for_pan pan df = some email ∧
           cf (pathJoin pd (files.getD i []))
             (pathJoin (pathJoin od pan) (files.getD i [])) = Except.ok ())) := by
  refine ⟨by simp [classify_pdfs], ?_⟩
  intro i hi
  have hslot : (classify_pdfs rt cf pd od df files).getD i none =
      process_pdf rt cf pd od df (files.getD i []) := by
    unfold classify_pdfs
    rw [List.getD_eq_getElem?_getD, List.getD_eq_getElem?_getD, List.getElem?_map,
      List.getElem?_eq_getElem hi]
    rfl
  refine ⟨hslot, ?_⟩
  rw [hslot]
  exact process_pdf_isSome_iff rt cf pd od df (files.getD i [])

theorem classifier_one_slot_per_input_witness :
    (classify_pdfs (fun _ => Except.error ()) (fun _ _ => Except.ok ()) ("in".toList)
        ("st".toList) [] ["A.pdf".toList]).length = ([("A.pdf".toList)] : List Str).length ∧
    ((classify_pdfs (fun _ => Except.error ()) (fun _ _ => Except.ok ()) ("in".toList)
        ("st".toList) [] ["A.pdf".toList]).getD 0 none =
      process_pdf (fun _ => Except.error ()) (fun _ _ => Except.ok ()) ("in".toList)
        ("st".toList) [] (([("A.pdf".toList)] : List Str).getD 0 []) ∧
     (((classify_pdfs (fun _ => Except.error ()) (fun _ _ => Except.ok ()) ("in".toList)
          ("st".toList) [] ["A.pdf".toList]).getD 0 none).isSome = true ↔
       ∃ pan email,
         extract_pan_from_pdf (fun _ => Except.error ())
           (pathJoin ("in".toList) (([("A.pdf".toList)] : List Str).getD 0 [])) = some pan ∧
         get_email_for_pan pan [] = some email ∧
         (fun _ _ => (Except.ok () : Except Unit Unit))
           (pathJoin ("in".toList) (([("A.pdf".toList)] : List Str).getD 0 []))
           (pathJoin (pathJoin ("st".toList) pan)
             (([("A.pdf".toList)] : List Str).getD 0 [])) = Except.ok ())) :=
  ⟨(classifier_one_slot_per_input (fun _ => Except.error ()) (fun _ _ => Except.ok ())
      ("in".toList) ("st".toList) [] ["A.pdf".toList]).1,
   (classifier_one_slot_per_input (fun _ => Except.error ()) (fun _ _ => Except.ok ())
      ("in".toList) ("st".toList) [] ["A.pdf".toList]).2 0 (by decide)⟩

/-- Claim C10: exactly the directory entries whose name ends in `.pdf`
case-insensitively are submitted to classification, and every triple the
pipeline later groups, sends or archives stems from such an entry. -/
theorem only_pdf_names_processed (listing : List Str) :
    (∀ f, f ∈ listPdfFiles listing ↔
      f ∈ listing ∧ pdfSuffix.isSuffixOf (lowerStr f) = true) ∧
    (∀ rt cf pd od df t, some t ∈ classify_pdfs rt cf pd od df (listPdfFiles listing) →
      ∃ f, f ∈ listing ∧ pdfSuffix.isSuffixOf (lowerStr f) = true ∧
        t.path = pathJoin (pathJoin od t.pan) f) := by
  constructor
  · intro f
    simp only [listPdfFiles, List.mem_filter, isPdfName]
  · intro rt cf pd od df t ht
    unfold classify_pdfs at ht
    obtain ⟨f, hf, hpf⟩ := List.mem_map.mp ht
    simp only [listPdfFiles, List.mem_filter, isPdfName] at hf
    exact ⟨f, hf.1, hf.2, (process_pdf_some_elim hpf).2.2.2.1⟩

theorem only_pdf_names_processed_witness :
    (("A.PDF".toList) ∈ listPdfFiles ["A.PDF".toList, "notes.txt".toList] ↔
      ("A.PDF".toList) ∈ ([("A.PDF".toList), ("notes.txt".toList)] : List Str) ∧
        pdfSuffix.isSuffixOf (lowerStr ("A.PDF".toList)) = true) ∧
    (∃ f, f ∈ ([("A.PDF".toList), ("notes.txt".toList)] : List Str) ∧
      pdfSuffix.isSuffixOf (lowerStr f) = true ∧
      (Triple.mk ("ABCDE1234F".toList) ("a@x.com".toList)
          (pathJoin (pathJoin ("st".toList) ("ABCDE1234F".toList)) ("A.PDF".toList))).path =
        pathJoin (pathJoin ("st".toList)
          (Triple.mk ("ABCDE1234F".toList) ("a@x.com".toList)
            (pathJoin (pathJoin ("st".toList) ("ABCDE1234F".toList)) ("A.PDF".toList))).pan) f) :=
  ⟨(only_pdf_names_processed ["A.PDF".toList, "notes.txt".toList]).1 ("A.PDF".toList),
   (only_pdf_names_processed ["A.PDF".toList, "notes.txt".toList]).2
     (fun _ => Except.ok ("Unique Identification Number ABCDE1234F".toList))
     (fun _ _ => Except.ok ()) ("in".toList) ("st".toList)
     [Row.mk ("ABCDE1234F".toList) ("a@x.com".toList)]
     (Triple.mk ("ABCDE1234F".toList) ("a@x.com".toList)
       (pathJoin (pathJoin ("st".toList) ("ABCDE1234F".toList)) ("A.PDF".toList)))
     (by decide)⟩

theorem archiveFiles_all_ok (moveFile : Str → Str → Bool) (ptf : List (Str × List Str))
    (dir : Str) : ∀ atts : List Str,
    (∀ p ∈ atts, (lookupPan ptf p).isSome = true) →
    (∀ p q, moveFile p q = true) →
    archiveFiles moveFile ptf dir atts = (atts, true) := by
  intro atts
  induction atts with
  | nil => intro _ _; rfl
  | cons p rest ih =>
    intro hl hm
    obtain ⟨pan, hpan⟩ := Option.isSome_iff_exists.mp (hl p (by simp))
    simp [archiveFiles, hpan, hm, ih (fun p2 h2 => hl p2 (by simp [h2])) hm]

/-- Claim C1: with the reverse lookup defined for every attachment and
the move operation succeeding everywhere, each recipient group is
archived in full exactly when its dispatch call returns success, and a
group whose dispatch returns failure has none of its files moved. -/
theorem dispatch_gates_archival (send : Str → Bool) (moveFile : Str → Str → Bool)
    (ptf : List (Str × List Str)) (dir : Str) (groups : List (Str × List Str))
    (hm : ∀ p q, moveFile p q = true)
    (hl : ∀ g ∈ groups, ∀ p ∈ g.2, (lookupPan ptf p).isSome = true) :
    dispatchLoop send moveFile ptf dir groups =
      (groups.map (fun g => (g.1, send g.1, if send g.1 then g.2 else [])), false) := by
  induction groups with
  | nil => rfl
  | cons g rest ih =>
    obtain ⟨email, atts⟩ := g
    have ihr := ih (fun g2 h2 p hp2 => hl g2 (by simp [h2]) p hp2)
    cases hs : send email with
    | true =>
      have ha := archiveFiles_all_ok moveFile ptf dir atts
        (fun p hp2 => hl (email, atts) (by simp) p hp2) hm
      simp [dispatchLoop, hs, ha, ihr]
    | false =>
      simp [dispatchLoop, hs, ihr]

theorem dispatch_gates_archival_witness :
    dispatchLoop (fun em => em == ("a@x.com".toList)) (fun _ _ => true)
      [(("AAAAA1111A".toList), [("p1".toList)]), (("BBBBB2222B".toList), [("p2".toList)])]
      ("done".toList)
      [(("a@x.com".toList), [("p1".toList)]), (("b@x.com".toList), [("p2".toList)])] =
    ([(("a@x.com".toList), true, [("p1".toList)]), (("b@x.com".toList), false, [])], false) := by
  have h := dispatch_gates_archival (fun em => em == ("a@x.com".toList)) (fun _ _ => true)
    [(("AAAAA1111A".toList), [("p1".toList)]), (("BBBBB2222B".toList), [("p2".toList)])]
    ("done".toList)
    [(("a@x.com".toList), [("p1".toList)]), (("b@x.com".toList), [("p2".toList)])]
    (fun _ _ => rfl) (by decide)
  rw [h]
  decide

/-- Counterexample to claim C2 as stated: dispatch for the first group
succeeds and the move of its first attachment fails, while the move of
its second attachment would succeed on its own; yet the second attachment
is not archived, and neither is the following group, because the move
error propagates to the top-level handler of `main` and ends the loop. -/
theorem move_failure_blocks_rest_cx :
    (dispatchLoop (fun _ => true) (fun p _ => p != ("p1".toList))
        [(("AAAAA1111A".toList), [("p1".toList), ("p2".toList)]),
         (("BBBBB2222B".toList), [("p3".toList)])] []
        [(("a@x.com".toList), [("p1".toList), ("p2".toList)]),
         (("b@x.com".toList), [("p3".toList)])]).2 = true ∧
    (fun (p : Str) (_ : Str) => p != ("p1".toList)) ("p2".toList) [] = true ∧
    ∀ g ∈ (dispatchLoop (fun _ => true) (fun p _ => p != ("p1".toList))
        [(("AAAAA1111A".toList), [("p1".toList), ("p2".toList)]),
         (("BBBBB2222B".toList), [("p3".toList)])] []
        [(("a@x.com".toList), [("p1".toList), ("p2".toList)]),
         (("b@x.com".toList), [("p3".toList)])]).1,
      ("p2".toList) ∉ g.2.2 ∧ ("p3".toList) ∉ g.2.2 := by decide

theorem archiveFiles_fail_at (moveFile : Str → Str → Bool) (ptf : List (Str × List Str))
    (dir : Str) (x : Str) (b : List Str)
    (hx : ∀ q, moveFile x q = false)
    (hlx : (lookupPan ptf x).isSome = true) :
    ∀ a : List Str, (∀ p ∈ a, ∀ q, moveFile p q = true) →
      (∀ p ∈ a, (lookupPan ptf p).isSome = true) →
      archiveFiles moveFile ptf dir (a ++ x :: b) = (a, false) := by
  intro a
  induction a with
  | nil =>
    intro _ _
    obtain ⟨pan, hpan⟩ := Option.isSome_iff_exists.mp hlx
    simp [archiveFiles, hpan, hx]
  | cons p arest ih =>
    intro ha hla
    obtain ⟨pan, hpan⟩ := Option.isSome_iff_exists.mp (hla p (by simp))
    simp [archiveFiles, hpan, ha p (by simp),
      ih (fun p2 h2 => ha p2 (by simp [h2])) (fun p2 h2 => hla p2 (by simp [h2]))]

/-- Claim C2 amended: a failure to move one attachment of a successfully
sent group is not recovered per file; the exception ends the archival
loop and the whole send loop, so the failed file, the remaining files of
its group and all later groups are left unarchived, while the files moved
before the failure stay moved. -/
theorem move_failure_aborts_run (send : Str → Bool) (moveFile : Str → Str → Bool)
    (ptf : List (Str × List Str)) (dir : Str) (e x : Str) (a b : List Str)
    (rest : List (Str × List Str))
    (hse : send e = true)
    (ha : ∀ p ∈ a, ∀ q, moveFile p q = true)
    (hla : ∀ p ∈ a, (lookupPan ptf p).isSome = true)
    (hlx : (lookupPan ptf x).isSome = true)
    (hx : ∀ q, moveFile x q = false) :
    dispatchLoop send moveFile ptf dir ((e, a ++ x :: b) :: rest) =
      ([(e, true, a)], true) := by
  have harch := archiveFiles_fail_at moveFile ptf dir x b hx hlx a ha hla
  simp [dispatchLoop, hse, harch]

theorem move_failure_aborts_run_witness :
    dispatchLoop (fun _ => true) (fun p _ => p != ("p1".toList))
      [(("AAAAA1111A".toList), [("p1".toList), ("p2".toList)]),
       (("BBBBB2222B".toList), [("p3".toList)])] []
      [(("a@x.com".toList), ([] : List Str) ++ ("p1".toList) :: [("p2".toList)]),
       (("b@x.com".toList), [("p3".toList)])] =
      ([(("a@x.com".toList), true, ([] : List Str))], true) :=
  move_failure_aborts_run (fun _ => true) (fun p _ => p != ("p1".toList))
    [(("AAAAA1111A".toList), [("p1".toList), ("p2".toList)]),
     (("BBBBB2222B".toList), [("p3".toList)])] []
    ("a@x.com".toList) ("p1".toList) [] [("p2".toList)]
    [(("b@x.com".toList), [("p3".toList)])]
    rfl (fun p hp => absurd hp (by simp)) (fun p hp => absurd hp (by simp))
    (by decide) (fun q => rfl)

theorem retryAux_head (fails : Nat → Bool) :
    ∀ (fuel a t : Nat), fuel ≠ 0 → (retryAux fails fuel a t).1.getD 0 0 = t := by
  intro fuel a t h
  cases fuel with
  | zero => exact absurd rfl h
  | succ f => cases hf : fails a <;> simp [retryAux, hf]

theorem retryAux_len (fails : Nat → Bool) :
    ∀ (fuel a t : Nat), (retryAux fails fuel a t).1.length ≤ fuel := by
  intro fuel
  induction fuel with
  | zero => intro a t; simp [retryAux]
  | succ f ih =>
    intro a t
    cases hf : fails a with
    | false => simp [retryAux, hf]
    | true =>
      simp only [retryAux, hf, if_true, List.length_cons]
      exact Nat.succ_le_succ (ih (a + 1) (t + BASE_DELAY * 2 ^ a))

theorem retryAux_endTime_ge (fails : Nat → Bool) :
    ∀ (fuel a t : Nat), t ≤ (retryAux fails fuel a t).2.2 := by
  intro fuel
  induction fuel with
  | zero => intro a t; simp [retryAux]
  | succ f ih =>
    intro a t
    cases hf : fails a with
    | false => simp [retryAux, hf]
    | true =>
      simp only [retryAux, hf, if_true]
      calc t ≤ t + BASE_DELAY * 2 ^ a := Nat.le_add_right _ _
        _ ≤ _ := ih (a + 1) (t + BASE_DELAY * 2 ^ a)

theorem retryAux_delays (fails : Nat → Bool) :
    ∀ (fuel a t k : Nat), k + 1 < (retryAux fails fuel a t).1.length →
      (retryAux fails fuel a t).1.getD (k + 1) 0 =
        (retryAux fails fuel a t).1.getD k 0 + BASE_DELAY * 2 ^ (a + k) := by
  intro fuel
  induction fuel with
  | zero => intro a t k h; simp [retryAux] at h
  | succ f ih =>
    intro a t k h
    cases hf : fails a with
    | false =>
      simp only [retryAux, hf, if_false, Bool.false_eq_true, List.length_cons,
        List.length_nil] at h
      omega
    | true =>
      simp only [retryAux, hf, if_true] at h ⊢
      cases k with
      | zero =>
        have hne : f ≠ 0 := by
          intro h0
          subst h0
          simp [retryAux] at h
        simp only [List.getD_cons_succ, List.getD_cons_zero, Nat.add_zero]
        exact retryAux_head fails f (a + 1) (t + BASE_DELAY * 2 ^ a) hne
      | succ k2 =>
        simp only [List.getD_cons_succ]
        have hlen : k2 + 1 < (retryAux fails f (a + 1) (t + BASE_DELAY * 2 ^ a)).1.length := by
          simp only [List.length_cons] at h
          omega
        have := ih (a + 1) (t + BASE_DELAY * 2 ^ a) k2 hlen
        rw [this]
        have hexp : a + 1 + k2 = a + (k2 + 1) := by omega
        rw [hexp]

/-- Claim C4: for every failed attempt with index `k`, the delay between
attempt `k` and attempt `k + 1` is the base delay multiplied by `2 ^ k`,
and no more than `MAX_RETRIES` attempts are made. -/
theorem retry_backoff_schedule (fails : Nat → Bool) (t0 : Nat) :
    (retryFrom fails 0 t0).1.length ≤ MAX_RETRIES ∧
    ∀ k, k + 1 < (retryFrom fails 0 t0).1.length →
      (retryFrom fails 0 t0).1.getD (k + 1) 0 =
        (retryFrom fails 0 t0).1.getD k 0 + BASE_DELAY * 2 ^ k := by
  constructor
  · have := retryAux_len fails (MAX_RETRIES - 0) 0 t0
    simpa [retryFrom] using this
  · intro k hk
    have := retryAux_delays fails (MAX_RETRIES - 0) 0 t0 k (by simpa [retryFrom] using hk)
    simpa [retryFrom] using this

theorem retry_backoff_schedule_witness :
    (retryFrom (fun _ => true) 0 0).1.length ≤ MAX_RETRIES ∧
    (retryFrom (fun _ => true) 0 0).1.getD 1 0 =
      (retryFrom (fun _ => true) 0 0).1.getD 0 0 + BASE_DELAY * 2 ^ 0 :=
  ⟨(retry_backoff_schedule (fun _ => true) 0).1,
   (retry_backoff_schedule (fun _ => true) 0).2 0 (by decide)⟩

theorem acquire_spec (s : LimState) (hs : s.lastReset ≤ s.time) :
    (acquire s).lastReset ≤ (acquire s).time ∧
    s.time ≤ (acquire s).time ∧
    s.lastReset ≤ (acquire s).lastReset ∧
    (acquire s).numCalls ≤ CALLS_PER_MINUTE ∧
    (((acquire s).lastReset = s.lastReset ∧ (acquire s).numCalls = s.numCalls + 1) ∨
      (s.lastReset < (acquire s).lastReset ∧ (acquire s).numCalls = 1)) := by
  have hp : (0 : Nat) < PERIOD := by decide
  have hc : (1 : Nat) ≤ CALLS_PER_MINUTE := by decide
  simp only [acquire]
  split_ifs with h1 h2 h3 <;> dsimp only <;> omega

theorem runTimed_calls_length (scheds : List (Nat → Bool)) :
    ∀ s, (runTimed scheds s).1.length = scheds.length := by
  induction scheds with
  | nil => intro s; rfl
  | cons f rest ih => intro s; simp [runTimed, ih]

theorem runTimed_windows_ge (scheds : List (Nat → Bool)) :
    ∀ s, s.lastReset ≤ s.time → ∀ c ∈ (runTimed scheds s).1, s.lastReset ≤ c.2 := by
  induction scheds with
  | nil => intro s hs c hc; simp [runTimed] at hc
  | cons f rest ih =>
    intro s hs c hc
    obtain ⟨hinv, htime, hmono, hcalls, hdich⟩ := acquire_spec s hs
    simp only [runTimed, List.mem_cons] at hc
    rcases hc with rfl | hc
    · exact hmono
    · have hs2 : (acquire s).lastReset ≤ (retryFrom f 0 (acquire s).time).2.2 :=
        le_trans hinv (retryAux_endTime_ge f (MAX_RETRIES - 0) 0 (acquire s).time)
      exact le_trans hmono
        (ih (LimState.mk (retryFrom f 0 (acquire s).time).2.2 (acquire s).lastReset
          (acquire s).numCalls) hs2 c hc)

theorem runTimed_window_count (scheds : List (Nat → Bool)) :
    ∀ (s : LimState) (w : Nat), s.lastReset ≤ s.time → s.numCalls ≤ CALLS_PER_MINUTE →
      ((runTimed scheds s).1.filter (fun c => c.2 == w)).length +
        (if s.lastReset = w then s.numCalls else 0) ≤ CALLS_PER_MINUTE := by
  induction scheds with
  | nil =>
    intro s w hs hc
    simp only [runTimed, List.filter_nil, List.length_nil, Nat.zero_add]
    split <;> omega
  | cons f rest ih =>
    intro s w hs hc
    obtain ⟨hinv, htime, hmono, hcalls, hdich⟩ := acquire_spec s hs
    have hs2 : (acquire s).lastReset ≤ (retryFrom f 0 (acquire s).time).2.2 :=
      le_trans hinv (retryAux_endTime_ge f (MAX_RETRIES - 0) 0 (acquire s).time)
    have ihs := ih (LimState.mk (retryFrom f 0 (acquire s).time).2.2 (acquire s).lastReset
      (acquire s).numCalls) w hs2 hcalls
    dsimp only at ihs
    simp only [runTimed, List.filter_cons]
    by_cases hw : (acquire s).lastReset = w
    · have hb : ((((acquire s).time, (acquire s).lastReset) : Nat × Nat).2 == w) = true := by
        simp [hw]
      rw [hb]
      simp only [if_true, List.length_cons]
      rw [if_pos hw] at ihs
      rcases hdich with ⟨hsame, hsucc⟩ | ⟨hlt, hone⟩
      · rw [if_pos (hsame.symm.trans hw)]
        omega
      · have hne : ¬ s.lastReset = w := by omega
        rw [if_neg hne]
        omega
    · have hb : ((((acquire s).time, (acquire s).lastReset) : Nat × Nat).2 == w) = false := by
        simp [hw]
      rw [hb]
      simp only [Bool.false_eq_true, if_false]
      rw [if_neg hw] at ihs
      by_cases hsw : s.lastReset = w
      · have hlt : s.lastReset < (acquire s).lastReset := by
          rcases hdich with ⟨hsame, -⟩ | ⟨hlt, -⟩
          · exact absurd (hsame.trans hsw) hw
          · exact hlt
        have hnil : (List.filter (fun c => c.2 == w) (runTimed rest (LimState.mk
            (retryFrom f 0 (acquire s).time).2.2 (acquire s).lastReset
            (acquire s).numCalls)).1) = [] := by
          rw [List.filter_eq_nil_iff]
          intro c hcmem
          have hge := runTimed_windows_ge rest (LimState.mk
            (retryFrom f 0 (acquire s).time).2.2 (acquire s).lastReset
            (acquire s).numCalls) hs2 c hcmem
          dsimp only at hge
          simp only [beq_iff_eq]
          intro hceq
          omega
        rw [hnil]
        simp only [List.length_nil, Nat.zero_add]
        rw [if_pos hsw]
        omega
      · rw [if_neg hsw]
        omega

/-- Counterexample to claim C3 as stated: with eleven recipient groups
whose first SMTP attempt fails and whose second succeeds, the run makes
22 send attempts inside the rolling 60-second window starting at time 0,
which exceeds the configured limit of 20; the limiter never delays any of
these calls because it counts invocations of the decorated function, not
the retry attempts made inside one invocation. -/
theorem rate_limit_attempts_exceed_cx :
    ((runTimed (List.replicate 11 (fun k => k == 0)) (LimState.mk 0 0 0)).2.1.countP
        (fun t => decide (t < 60))) = 22 ∧
    CALLS_PER_MINUTE < 22 := by
  constructor
  · decide
  · decide

/-- Claim C3 amended: the `ratelimit` decorators bound invocations of
`send_grouped_email_with_retry` (one per recipient group), not individual
send attempts: within each limiter window at most `CALLS_PER_MINUTE`
invocations start, and every caller is eventually run (delayed, never
rejected).  Retry attempts inside one invocation are not counted, and the
window is the fixed window of the limiter, not a rolling one. -/
theorem rate_limit_bounds_invocations (scheds : List (Nat → Bool)) (w : Nat) :
    ((runTimed scheds (LimState.mk 0 0 0)).1.filter (fun c => c.2 == w)).length ≤
      CALLS_PER_MINUTE ∧
    (runTimed scheds (LimState.mk 0 0 0)).1.length = scheds.length := by
  constructor
  · have h := runTimed_window_count scheds (LimState.mk 0 0 0) w (Nat.le_refl 0) (by decide)
    have h2 : (if (LimState.mk 0 0 0).lastReset = w then (LimState.mk 0 0 0).numCalls
        else 0) = 0 := by
      split <;> rfl
    omega
  · exact runTimed_calls_length scheds (LimState.mk 0 0 0)
